import Mathlib

/-!
# The playground's compile loop (`playground/playground.go`)

A shallow embedding of the controller of the Go playground page: the output
log and its two runtime hooks, the import resolver, the `run` closure with its
parse, compile, fetch and emission branches, and the `onload` handler of the
package requests.  The closure variables of `control` (`packages`,
`pkgsToLoad`, `pkgsReceived`), the package variable `output` and the values
held by the page scope are the fields of one `State` record that every
operation takes and returns.
-/

namespace Playground

/-! ## Output lines -/

/-- One entry of the output log: the Go value `Line` is a string map that is
always built with exactly the keys `"type"` and `"content"`. -/
structure Line where
  type : String
  content : String
deriving DecidableEq, Repr

/-- The Go interface value `error`, observed only through its `Error()` text. -/
structure GoError where
  msg : String
deriving DecidableEq, Repr

/-- The method `Error()` of an error value. -/
def GoError.Error (e : GoError) : String := e.msg

/-- Source `errLine`. -/
def errLine (s : String) : Line :=
  { type := "err", content := s }

/-- Source `errErrLine`. -/
def errErrLine (e : GoError) : Line :=
  errLine e.Error

/-- Source `outLine` (it builds the line with the type `"err"`). -/
def outLine (s : String) : Line :=
  { type := "err", content := s }

/-- Go `strings.Split(s, "\n")` on the characters of `s`: the segments between
newlines, always at least one of them. -/
def splitNewline : List Char → List (List Char)
  | [] => [[]]
  | c :: cs =>
    if c = '\n' then [] :: splitNewline cs
    else
      match splitNewline cs with
      | [] => [[c]]
      | seg :: segs => (c :: seg) :: segs

/-- Go `strings.Split(s, "\n")`. -/
def Split (s : String) : List String :=
  (splitNewline s.data).map String.mk

/-- The statement `output[len(output)-1]["content"] += s`. -/
def appendToLast : List Line → String → List Line
  | [], _ => []
  | [l], s => [{ l with content := l.content ++ s }]
  | l :: l2 :: ls, s => l :: appendToLast (l2 :: ls) s

/-- The test `len(output) == 0 || output[len(output)-1]["type"] != "out"`. -/
def needsOutLine (output : List Line) : Bool :=
  match output.getLast? with
  | none => true
  | some l => l.type != "out"

/-- The body of the hook `goPrintToConsole` on the log: it returns the new
value of `output`, which the hook then hands to the scope. -/
def printToLog (output : List Line) (b : String) : List Line :=
  let lines := Split b
  let output := if needsOutLine output then output ++ [{ type := "out", content := "" }] else output
  let output := appendToLast output (lines.headD "")
  lines.tail.foldl (fun out l => out ++ [outLine l]) output

/-- The body of the hook `goPanicHandler` on the log. -/
def panicToLog (output : List Line) (msg : String) : List Line :=
  output ++ [errLine ("panic:" ++ msg)]

/-! ## Archives and the import resolver -/

/-- The compiler's `Archive` record, reduced to what the playground can
observe of it: the recorded dependency list it walks, and the rest of the
compiled package as its import path and declarations. -/
structure Archive where
  ImportPath : String
  Dependencies : List String
  Declarations : List String
deriving DecidableEq, Repr

/-- The zero value `compiler.Archive{}`. -/
def Archive.empty : Archive :=
  { ImportPath := "", Dependencies := [], Declarations := [] }

/-- A Go pointer `*compiler.Archive`; `none` is `nil`. -/
abbrev ArchivePtr := Option Archive

/-- The Go map `packages`: `none` for a path that is not a key. -/
abbrev Packages := String → Option ArchivePtr

/-- The map `make(map[string]*compiler.Archive)`. -/
def Packages.empty : Packages := fun _ => none

/-- The assignment `packages[path] = pkg`. -/
def Packages.set (m : Packages) (path : String) (pkg : ArchivePtr) : Packages :=
  fun p => if p = path then some pkg else m p

/-- The expression `packages[path]` read without the `found` flag: `nil` for
a missing key. -/
def Packages.index (m : Packages) (path : String) : ArchivePtr :=
  (m path).getD none

/-- The function handed to `compiler.NewImportContext`, which is also what
`importContext.Import` calls: the cached archive on a hit, and on a miss the
path appended to `pkgsToLoad` and a fresh empty archive.  It reads `packages`
and never writes it, so only the new `pkgsToLoad` is returned beside the Go
result pair. -/
def importFunc (packages : Packages) (pkgsToLoad : List String) (path : String) :
    (ArchivePtr × Option GoError) × List String :=
  match packages path with
  | some pkg => ((pkg, none), pkgsToLoad)
  | none => ((some Archive.empty, none), pkgsToLoad ++ [path])

/-- The list `pkgsToLoad` after the resolver has been called on each path of
`paths` in turn. -/
def importAll (packages : Packages) (pkgsToLoad : List String) (paths : List String) :
    List String :=
  paths.foldl (fun toLoad path => (importFunc packages toLoad path).2) pkgsToLoad

/-- A computation of the compiler library that may call the import resolver:
it either finishes with a result or asks for a path and continues with what
the resolver returned. -/
inductive Importing (α : Type) where
  | done : α → Importing α
  | imp : String → ((ArchivePtr × Option GoError) → Importing α) → Importing α

/-- Run a library computation against the resolver of the current `packages`
and `pkgsToLoad`. -/
def Importing.exec {α : Type} : Importing α → Packages → List String → α × List String
  | .done a, _, toLoad => (a, toLoad)
  | .imp path k, packages, toLoad =>
    (k (importFunc packages toLoad path).1).exec packages (importFunc packages toLoad path).2

/-! ## The services the controller calls -/

/-- A non-nil `error` as the controller tells them apart: an error list
(`scanner.ErrorList`, `compiler.ErrorList`) or any other error. -/
inductive ErrValue where
  | list : List GoError → ErrValue
  | other : GoError → ErrValue
deriving DecidableEq, Repr

/-- The pair returned by `compiler.Compile`: without an error the archive is
there; with an error the pointer is whatever the compiler returned. -/
inductive CompileResult where
  | ok : Archive → CompileResult
  | fail : ArchivePtr → ErrValue → CompileResult
deriving DecidableEq, Repr

/-- The returned `mainPkg`. -/
def CompileResult.pkg : CompileResult → ArchivePtr
  | .ok a => some a
  | .fail p _ => p

/-- The bytes of a response. -/
abbrev Bytes := List Nat

/-- A call the executed program makes back into the page. -/
inductive HostCall where
  | print : String → HostCall
  | fault : String → HostCall
deriving DecidableEq, Repr

/-- The collaborators of the controller, over the parser's syntax trees:
`parser.ParseFile` on the editor text, `compiler.Compile` of package `main`,
`compiler.UnmarshalArchive` (file name, path, data), the two code writers, and
the host's `eval`, seen as the calls the program makes to `goPrintToConsole`
and `goPanicHandler` while it runs. -/
structure Env (AST : Type) where
  ParseFile : String → AST × Option ErrValue
  Compile : AST → Importing CompileResult
  UnmarshalArchive : String → String → Bytes → Importing (ArchivePtr × Option GoError)
  WritePkgCode : ArchivePtr → String
  WriteProgramCode : List ArchivePtr → String
  eval : String → List HostCall

/-! ## State -/

/-- A request that was sent and whose `onload` has not run yet, with the
variables its handler captured. -/
structure Request where
  id : Nat
  url : String
  path : String
  loadOnly : Bool
deriving DecidableEq, Repr

/-- The variables of the controller.  `code` is the editor text, `output` the
package variable, `scopeOutput` and `generated` the values last set on the
scope.  `requests` are the requests in flight and `nextId` numbers them.  The
last four fields only record what happened: the argument of every call of
`run`, the number of calls of `compiler.Compile`, every archive list given to
`compiler.WriteProgramCode`, and every text given to `eval`. -/
structure State where
  code : String
  output : List Line
  scopeOutput : List Line
  generated : String
  packages : Packages
  pkgsToLoad : List String
  pkgsReceived : Nat
  requests : List Request
  nextId : Nat
  runLog : List Bool
  compileCalls : Nat
  programLog : List (List ArchivePtr)
  evalLog : List String

/-- Source `initCode`. -/
def initCode : String :=
  "package main\n\nimport (\n\t\"fmt\"\n\t// \"github.com/gopherjs/gopherjs/js\"\n)\n\nfunc main() \x7b\n\tfmt.Println(\"Hello, playground\")\n\t// js.Global.Call(\"alert\", \"Hello, Javascript\")\n\t// println(\"Hello, JS console\")\n\x7d\n"

/-- The state `control` sets up before its first `run(true)`. -/
def State.init : State :=
  { code := initCode
    output := []
    scopeOutput := []
    generated := "(generated code will be shown here after clicking \"Run\")"
    packages := Packages.empty
    pkgsToLoad := []
    pkgsReceived := 0
    requests := []
    nextId := 0
    runLog := []
    compileCalls := 0
    programLog := []
    evalLog := [] }

/-! ## The runtime hooks -/

/-- The hook `goPrintToConsole` installed by `setupEnvironment`. -/
def goPrintToConsole (b : String) (s : State) : State :=
  { s with output := printToLog s.output b, scopeOutput := printToLog s.output b }

/-- The hook `goPanicHandler` installed by `setupEnvironment`. -/
def goPanicHandler (msg : String) (s : State) : State :=
  { s with output := panicToLog s.output msg, scopeOutput := panicToLog s.output msg }

/-- One call of the running program into the page. -/
def hostCall (s : State) : HostCall → State
  | .print b => goPrintToConsole b s
  | .fault msg => goPanicHandler msg s

/-! ## `run` -/

/-- The loop `for _, entry := range list { output = append(output, errErrLine(entry)) }`. -/
def appendErrLines (output : List Line) (list : List GoError) : List Line :=
  list.foldl (fun out entry => out ++ [errErrLine entry]) output

/-- One turn of the request loop: a request for `path` is opened and sent. -/
def send (loadOnly : Bool) (s : State) (path : String) : State :=
  { s with
    requests := s.requests ++
      [{ id := s.nextId, url := "pkg/" ++ path ++ ".a", path := path, loadOnly := loadOnly }]
    nextId := s.nextId + 1 }

/-- The branch `if len(pkgsToLoad) != 0`: the counter is reset and one request
per entry of `pkgsToLoad` is sent. -/
def fetchAll (loadOnly : Bool) (s : State) : State :=
  s.pkgsToLoad.foldl (send loadOnly) { s with pkgsReceived := 0 }

/-- The loop over `mainPkg.Dependencies`: each path goes through the resolver
and the result is appended to `allPkgs`. -/
def resolveDeps (packages : Packages) (deps : List String)
    (start : List ArchivePtr × List String) : List ArchivePtr × List String :=
  deps.foldl
    (fun acc depPath =>
      (acc.1 ++ [(importFunc packages acc.2 depPath).1.1], (importFunc packages acc.2 depPath).2))
    start

/-- The end of `run`: the generated code of `main` is shown, the program code
is written inside the guard, and the text is evaluated. -/
def emit {AST : Type} (env : Env AST) (allPkgs : List ArchivePtr) (s : State) : State :=
  let s1 := { s with generated := env.WritePkgCode (s.packages.index "main") }
  let jsCode := "try\x7b\n" ++ env.WriteProgramCode allPkgs ++
    "\x7d catch (err) \x7b\ngoPanicHandler(err.message);\n\x7d\n"
  let s2 := { s1 with programLog := s1.programLog ++ [allPkgs], evalLog := s1.evalLog ++ [jsCode] }
  (env.eval jsCode).foldl hostCall s2

/-- The part of `run` from `if len(pkgsToLoad) != 0` on: the requests are
sent, or the run stops when `loadOnly` is set, or the code is emitted. -/
def fetchOrEmit {AST : Type} (env : Env AST) (loadOnly : Bool) (allPkgs : List ArchivePtr)
    (s : State) : State :=
  if s.pkgsToLoad.length ≠ 0 then fetchAll loadOnly s
  else if loadOnly then s
  else emit env allPkgs s

/-- The dependency walk `if len(pkgsToLoad) == 0 { ... }`: the new `allPkgs`
and `pkgsToLoad`. -/
def walkDeps (mainPkg : Archive) (s : State) : List ArchivePtr × List String :=
  if s.pkgsToLoad.length = 0 then
    ((resolveDeps s.packages mainPkg.Dependencies ([], s.pkgsToLoad)).1 ++ [some mainPkg],
     (resolveDeps s.packages mainPkg.Dependencies ([], s.pkgsToLoad)).2)
  else ([], s.pkgsToLoad)

/-- The part of `run` after `packages["main"] = mainPkg`. -/
def afterCompile {AST : Type} (env : Env AST) (loadOnly : Bool) (res : CompileResult)
    (s : State) : State :=
  match res with
  | .fail _ err =>
    if s.pkgsToLoad.length = 0 then
      match err with
      | .list list => { s with scopeOutput := appendErrLines [] list }
      | .other e => { s with scopeOutput := [errErrLine e] }
    else fetchAll loadOnly s
  | .ok mainPkg =>
    fetchOrEmit env loadOnly (walkDeps mainPkg s).1 { s with pkgsToLoad := (walkDeps mainPkg s).2 }

/-- The closure `run`. -/
def run {AST : Type} (env : Env AST) (loadOnly : Bool) (s : State) : State :=
  let s0 := { s with output := [], scopeOutput := [], pkgsToLoad := [],
                     runLog := s.runLog ++ [loadOnly] }
  match env.ParseFile s0.code with
  | (_, some (.list list)) =>
    { s0 with output := appendErrLines s0.output list,
              scopeOutput := appendErrLines s0.output list }
  | (_, some (.other err)) => { s0 with scopeOutput := [errErrLine err] }
  | (file, none) =>
    let r := (env.Compile file).exec s0.packages s0.pkgsToLoad
    let s1 := { s0 with pkgsToLoad := r.2, compileCalls := s0.compileCalls + 1,
                        packages := s0.packages.set "main" r.1.pkg }
    afterCompile env loadOnly r.1 s1

/-! ## Completion of a request -/

/-- The `onload` handler of a request, run with the response's status and
data. -/
def onload {AST : Type} (env : Env AST) (req : Request) (status : Int) (data : Bytes)
    (s : State) : State :=
  if status ≠ 200 then
    { s with scopeOutput := [errLine ("cannot load package \"" ++ req.path ++ "\"")] }
  else
    let r := (env.UnmarshalArchive (req.path ++ ".a") req.path data).exec s.packages s.pkgsToLoad
    let s1 := { s with pkgsToLoad := r.2, packages := s.packages.set req.path r.1.1 }
    match r.1.2 with
    | some err => { s1 with scopeOutput := [errErrLine err] }
    | none =>
      let s2 := { s1 with pkgsReceived := s1.pkgsReceived + 1 }
      if s2.pkgsReceived = s2.pkgsToLoad.length then run env req.loadOnly s2 else s2

/-- Take the request numbered `id` out of the requests in flight. -/
def takeRequest (id : Nat) : List Request → Option (Request × List Request)
  | [] => none
  | r :: rs =>
    if r.id = id then some (r, rs)
    else
      match takeRequest id rs with
      | none => none
      | some (q, rest) => some (q, r :: rest)

/-- The response to a request. -/
structure Completion where
  id : Nat
  status : Int
  response : Bytes
deriving DecidableEq, Repr

/-- The request numbered `c.id` completes: it leaves the requests in flight
and its handler runs.  Nothing happens when no such request is in flight. -/
def complete {AST : Type} (env : Env AST) (s : State) (c : Completion) : State :=
  match takeRequest c.id s.requests with
  | none => s
  | some (req, rest) => onload env req c.status c.response { s with requests := rest }

/-- A sequence of completions, in the order they happen. -/
def completeAll {AST : Type} (env : Env AST) (s : State) (cs : List Completion) : State :=
  cs.foldl (complete env) s

/-! ## A sample environment

A small parser, compiler and archive decoder on which the statements below are
evaluated.  The syntax tree of a text is the text itself. -/

/-- The syntax errors of the sample parser. -/
def demoSyntaxErrors : List GoError :=
  [⟨"prog.go:1:1: expected package"⟩, ⟨"prog.go:2:1: expected declaration"⟩]

/-- The errors of the sample compiler. -/
def demoCompileErrors : List GoError :=
  [⟨"prog.go:4:2: undefined: x"⟩, ⟨"prog.go:5:2: undefined: y"⟩]

/-- The sample parser: the text `"syntax"` has two syntax errors, every other
text parses. -/
def demoParse (src : String) : String × Option ErrValue :=
  if src = "syntax" then (src, some (.list demoSyntaxErrors)) else (src, none)

/-- The sample compiler: `"type"` fails with two errors and imports nothing,
`"deps"` imports `fmt` and records the dependencies `runtime` and `fmt`,
`"ab"` imports `a` and `b`, `"b"` imports `b`, and every other program imports
nothing. -/
def demoCompile (ast : String) : Importing CompileResult :=
  if ast = "type" then
    .done (.fail none (.list demoCompileErrors))
  else if ast = "deps" then
    .imp "fmt" (fun _ => .done (.ok ⟨"main", ["runtime", "fmt"], ["main"]⟩))
  else if ast = "ab" then
    .imp "a" (fun _ => .imp "b" (fun _ => .done (.ok ⟨"main", ["a", "b"], ["main"]⟩)))
  else if ast = "b" then
    .imp "b" (fun _ => .done (.ok ⟨"main", ["b"], ["main"]⟩))
  else .done (.ok ⟨"main", [], ["main"]⟩)

/-- The sample decoder: empty data does not decode, any other data decodes to
an archive of the path without dependencies. -/
def demoUnmarshal (_filename path : String) (data : Bytes) :
    Importing (ArchivePtr × Option GoError) :=
  if data = [] then .done (none, some ⟨"unexpected end of archive"⟩)
  else .done (some ⟨path, [], [path]⟩, none)

/-- The sample writer of one package. -/
def demoPkgCode : ArchivePtr → String
  | none => ""
  | some a => String.join a.Declarations

/-- The sample environment. -/
def demoEnv : Env String :=
  { ParseFile := demoParse
    Compile := demoCompile
    UnmarshalArchive := demoUnmarshal
    WritePkgCode := demoPkgCode
    WriteProgramCode := fun pkgs => String.join (pkgs.map demoPkgCode)
    eval := fun _ => [.print "Hello, playground\n"] }

/-- The initial state with another editor text. -/
def stateWith (code : String) : State :=
  { State.init with code := code }

/-- The state in which the sample program `"deps"` is run: `fmt` is cached,
its dependency `runtime` is not. -/
def depsState : State :=
  { stateWith "deps" with
    packages := Packages.empty.set "fmt" (some ⟨"fmt", ["runtime", "fmt"], ["fmt"]⟩) }

/-- The state in which the sample program `"ab"` is run with both of its
imports cached. -/
def cachedState : State :=
  { stateWith "ab" with
    packages := (Packages.empty.set "a" (some ⟨"a", [], ["a"]⟩)).set "b"
      (some ⟨"b", [], ["b"]⟩) }

/-- A state with a request of an earlier run still in flight: the first
`run(true)` on the program `"b"` has sent its request for `b` (numbered 0),
which has not completed when the editor text becomes `"ab"`. -/
def editedState : State :=
  { run demoEnv true (stateWith "b") with code := "ab" }

/-! ## Predicates on runs of completions -/

/-- The completion `c` answers a request in flight with status 200 and data
that decode, and the decoding leaves `pkgsToLoad` as it is. -/
def succeeds {AST : Type} (env : Env AST) (s : State) (c : Completion) : Bool :=
  match takeRequest c.id s.requests with
  | none => false
  | some (req, _) =>
    decide (c.status = 200) &&
    ((env.UnmarshalArchive (req.path ++ ".a") req.path c.response).exec
        s.packages s.pkgsToLoad).1.2.isNone &&
    decide (((env.UnmarshalArchive (req.path ++ ".a") req.path c.response).exec
        s.packages s.pkgsToLoad).2 = s.pkgsToLoad)

/-- Every completion of the sequence succeeds in the state it happens in. -/
def allSucceed {AST : Type} (env : Env AST) : State → List Completion → Bool
  | _, [] => true
  | s, c :: cs => succeeds env s c && allSucceed env (complete env s c) cs

/-- The state of a batch while its first requests complete with success: `run`
was not called again, `pkgsToLoad` is still the batch, the counter and the
requests in flight add up to the size of the batch, the requests carry the
flag, and every path of the batch is cached or still requested. -/
def BatchInv (loadOnly : Bool) (batch : List String) (log : List Bool) (t : State) : Prop :=
  t.runLog = log ∧ t.pkgsToLoad = batch ∧
    t.pkgsReceived + t.requests.length = batch.length ∧
    (∀ r ∈ t.requests, r.loadOnly = loadOnly) ∧
    (∀ p ∈ batch, (t.packages p).isSome = true ∨ p ∈ t.requests.map Request.path)

/-- The state of a run with `loadOnly` set and of what follows it: every
request in flight carries the flag, nothing was written, evaluated or shown
as generated code since, and `run` was only called with the flag. -/
def LoadOnlyInv (evalLog : List String) (programLog : List (List ArchivePtr))
    (generated : String) (log : List Bool) (t : State) : Prop :=
  (∀ r ∈ t.requests, r.loadOnly = true) ∧ t.evalLog = evalLog ∧
    t.programLog = programLog ∧ t.generated = generated ∧
    ∃ l, t.runLog = log ++ l ∧ ∀ x ∈ l, x = true

/-- The state of a batch in which the request numbered `j` is still in flight:
`run` was not called again, and the counter and the requests in flight do not
exceed `pkgsToLoad`. -/
def PendingInv (j : Nat) (req : Request) (log : List Bool) (t : State) : Prop :=
  t.runLog = log ∧ t.pkgsReceived + t.requests.length ≤ t.pkgsToLoad.length ∧
    ∃ rest, takeRequest j t.requests = some (req, rest)

/-- The state of a batch one of whose requests has failed: `run` was not called
again, and the counter can no longer reach the length of `pkgsToLoad`. -/
def FailedInv (log : List Bool) (t : State) : Prop :=
  t.runLog = log ∧ t.pkgsReceived + t.requests.length < t.pkgsToLoad.length

/-! ## Lemmas on the log -/

theorem splitNewline_ne_nil (cs : List Char) : splitNewline cs ≠ [] := by
  induction cs with
  | nil => simp [splitNewline]
  | cons c cs ih =>
    unfold splitNewline
    split
    · simp
    · split <;> simp

/-- The split always has a first segment, the one the hook reads as
`lines[0]`. -/
theorem Split_ne_nil (b : String) : Split b ≠ [] := by
  simp [Split, splitNewline_ne_nil]

theorem appendErrLines_eq (out : List Line) (es : List GoError) :
    appendErrLines out es = out ++ es.map errErrLine := by
  unfold appendErrLines
  induction es generalizing out with
  | nil => simp
  | cons e es ih => simp [ih]

theorem foldl_outLine_eq (out : List Line) (ls : List String) :
    ls.foldl (fun o l => o ++ [outLine l]) out = out ++ ls.map outLine := by
  induction ls generalizing out with
  | nil => simp
  | cons l ls ih => simp [ih]

/-- The hook's log in closed form: the log (with a fresh `out` line when
needed) with the first segment added to its last line, then one `outLine` per
further segment. -/
theorem printToLog_eq (L : List Line) (b : String) :
    printToLog L b =
      appendToLast (if needsOutLine L then L ++ [{ type := "out", content := "" }] else L)
        ((Split b).headD "") ++ (Split b).tail.map outLine := by
  simp [printToLog, foldl_outLine_eq]

/-! ## C1 and C6: the standard output hook -/

/-- C1 (as stated, refuted): from the empty log of the initial state, the
chunks `"hello\nworld"` and then `"!\n"` do not leave the log equal to the two
entries `out:"hello"`, `out:"world!"`. -/
theorem C1_two_entries_refuted :
    (goPrintToConsole "!\n" (goPrintToConsole "hello\nworld" State.init)).output
      ≠ [⟨"out", "hello"⟩, ⟨"out", "world!"⟩] := by
  decide

/-- C1 (amended): from any state with an empty log, after the chunks
`"hello\nworld"` and `"!\n"` the log starts with the entry `out:"hello"`, the
texts of its lines joined in order are `"helloworld!"`, its last line has the
empty text that follows the final newline, it has at least three entries, and
the scope shows that same log. -/
theorem C1_chunks_log (s : State) (h : s.output = []) :
    (goPrintToConsole "!\n" (goPrintToConsole "hello\nworld" s)).output.head?
        = some ⟨"out", "hello"⟩ ∧
      String.join
        ((goPrintToConsole "!\n" (goPrintToConsole "hello\nworld" s)).output.map Line.content)
        = "helloworld!" ∧
      (goPrintToConsole "!\n" (goPrintToConsole "hello\nworld" s)).output.getLast?.map Line.content
        = some "" ∧
      3 ≤ (goPrintToConsole "!\n" (goPrintToConsole "hello\nworld" s)).output.length ∧
      (goPrintToConsole "!\n" (goPrintToConsole "hello\nworld" s)).scopeOutput
        = (goPrintToConsole "!\n" (goPrintToConsole "hello\nworld" s)).output := by
  simp only [goPrintToConsole, h]
  decide

theorem C1_chunks_log_witness :
    State.init.output = [] ∧
      (goPrintToConsole "!\n" (goPrintToConsole "hello\nworld" State.init)).output.head?
        = some ⟨"out", "hello"⟩ :=
  ⟨rfl, (C1_chunks_log State.init rfl).1⟩

/-- C6 (the code at the failing input): on the empty log the chunk `"a\nb"`
gives the segment after the newline a line of type `"err"`: the log is
`out:"a"`, `err:"b"`. -/
theorem C6_second_segment_kind :
    (goPrintToConsole "a\nb" State.init).output = [⟨"out", "a"⟩, ⟨"err", "b"⟩] ∧
      (goPrintToConsole "a\nb" State.init).output ≠ [⟨"out", "a"⟩, ⟨"out", "b"⟩] := by
  decide

/-! ## C5: the import resolver -/

theorem importAll_eq (packages : Packages) (toLoad paths : List String) :
    importAll packages toLoad paths
      = toLoad ++ paths.filter (fun p => (packages p).isNone) := by
  unfold importAll
  induction paths generalizing toLoad with
  | nil => simp
  | cons p ps ih =>
    rw [List.foldl_cons, ih]
    unfold importFunc
    cases hp : packages p <;> simp [hp]

/-- C5 (as stated, refuted): two resolver calls with the same missing path
leave that path twice in `pkgsToLoad`. -/
theorem C5_same_path_twice :
    importAll Packages.empty [] ["a", "a"] = ["a", "a"] ∧
      (importAll Packages.empty [] ["a", "a"]).count "a" = 2 := by
  decide

/-- C5 (amended): on a hit the resolver returns the cached archive with no
error and leaves `pkgsToLoad` as it was; on a miss it returns the empty
archive with no error and appends the path to the end of `pkgsToLoad`; so
after the resolver was called on `paths`, `pkgsToLoad` is the old list
followed by the missing paths of `paths` in call order, one entry per call. -/
theorem C5_resolver (packages : Packages) (toLoad : List String) (path : String) :
    (∀ pkg, packages path = some pkg →
        importFunc packages toLoad path = ((pkg, none), toLoad)) ∧
      (packages path = none →
        importFunc packages toLoad path = ((some Archive.empty, none), toLoad ++ [path])) ∧
      (∀ paths, importAll packages toLoad paths
        = toLoad ++ paths.filter (fun p => (packages p).isNone)) := by
  refine ⟨?_, ?_, importAll_eq packages toLoad⟩
  · intro pkg h
    simp [importFunc, h]
  · intro h
    simp [importFunc, h]

theorem C5_resolver_witness :
    importFunc (Packages.empty.set "fmt" (some ⟨"fmt", [], []⟩)) ["os"] "fmt"
        = ((some ⟨"fmt", [], []⟩, none), ["os"]) ∧
      importFunc (Packages.empty.set "fmt" (some ⟨"fmt", [], []⟩)) ["os"] "io"
        = ((some Archive.empty, none), ["os", "io"]) :=
  ⟨(C5_resolver (Packages.empty.set "fmt" (some ⟨"fmt", [], []⟩)) ["os"] "fmt").1 _ (by decide),
   (C5_resolver (Packages.empty.set "fmt" (some ⟨"fmt", [], []⟩)) ["os"] "io").2.1 (by decide)⟩

/-! ## C4 and C7: terminal errors -/

/-- C4: when the parser returns the error list `es` for the editor text,
`run` with either flag leaves both the log and the shown output equal to `es`
mapped in order to error lines with the entries' messages, and nothing else
happens: no call of the compiler, the same cache, no request, no archive list
written, nothing evaluated, the same generated text, the same editor text, and
`run` was called that once. -/
theorem C4_syntax_errors {AST : Type} (env : Env AST) (loadOnly : Bool) (s : State)
    (file : AST) (es : List GoError)
    (hparse : env.ParseFile s.code = (file, some (.list es))) :
    (run env loadOnly s).scopeOutput = es.map (fun e => errLine e.Error) ∧
      (run env loadOnly s).output = es.map (fun e => errLine e.Error) ∧
      (run env loadOnly s).compileCalls = s.compileCalls ∧
      (run env loadOnly s).packages = s.packages ∧
      (run env loadOnly s).requests = s.requests ∧
      (run env loadOnly s).programLog = s.programLog ∧
      (run env loadOnly s).evalLog = s.evalLog ∧
      (run env loadOnly s).generated = s.generated ∧
      (run env loadOnly s).code = s.code ∧
      (run env loadOnly s).runLog = s.runLog ++ [loadOnly] := by
  have hmap : es.map errErrLine = es.map (fun e => errLine e.Error) := rfl
  simp [run, hparse, appendErrLines_eq, hmap]

theorem C4_syntax_errors_witness :
    demoEnv.ParseFile (stateWith "syntax").code
        = ("syntax", some (.list demoSyntaxErrors)) ∧
      (run demoEnv false (stateWith "syntax")).scopeOutput
        = [⟨"err", "prog.go:1:1: expected package"⟩,
           ⟨"err", "prog.go:2:1: expected declaration"⟩] :=
  ⟨by decide, (C4_syntax_errors demoEnv false (stateWith "syntax") "syntax" demoSyntaxErrors
    (by decide)).1⟩

/-- C7: when the text parses, the compiler fails with the error list `es` and
`pkgsToLoad` is empty after the compilation, `run` with either flag leaves the
shown output equal to `es` mapped in order to error lines with the errors'
messages, and the run ends there: no request is sent, no archive list is
written, nothing is evaluated, the generated text is unchanged, and `run` was
called that once. -/
theorem C7_compile_errors {AST : Type} (env : Env AST) (loadOnly : Bool) (s : State)
    (file : AST) (pkg : ArchivePtr) (es : List GoError)
    (hparse : env.ParseFile s.code = (file, none))
    (hcompile : (env.Compile file).exec s.packages [] = (.fail pkg (.list es), [])) :
    (run env loadOnly s).scopeOutput = es.map (fun e => errLine e.Error) ∧
      (run env loadOnly s).requests = s.requests ∧
      (run env loadOnly s).programLog = s.programLog ∧
      (run env loadOnly s).evalLog = s.evalLog ∧
      (run env loadOnly s).generated = s.generated ∧
      (run env loadOnly s).runLog = s.runLog ++ [loadOnly] := by
  have hmap : es.map errErrLine = es.map (fun e => errLine e.Error) := rfl
  simp [run, hparse, hcompile, afterCompile, appendErrLines_eq, hmap]

theorem C7_compile_errors_witness :
    demoEnv.ParseFile (stateWith "type").code = ("type", none) ∧
      (run demoEnv true (stateWith "type")).scopeOutput
        = [⟨"err", "prog.go:4:2: undefined: x"⟩, ⟨"err", "prog.go:5:2: undefined: y"⟩] :=
  ⟨by decide,
   (C7_compile_errors demoEnv true (stateWith "type") "type" none demoCompileErrors
     (by decide) (by decide)).1⟩

/-! ## C10: emission -/

theorem importFunc_fst (packages : Packages) (toLoad : List String) (path : String) :
    (importFunc packages toLoad path).1.1 = (packages path).getD (some Archive.empty) := by
  unfold importFunc
  cases packages path <;> rfl

theorem resolveDeps_eq (packages : Packages) (deps : List String)
    (acc : List ArchivePtr) (toLoad : List String) :
    resolveDeps packages deps (acc, toLoad)
      = (acc ++ deps.map (fun d => (packages d).getD (some Archive.empty)),
         importAll packages toLoad deps) := by
  unfold resolveDeps importAll
  induction deps generalizing acc toLoad with
  | nil => simp
  | cons d ds ih =>
    rw [List.foldl_cons, List.foldl_cons, ih]
    simp [importFunc_fst]

/-- The calls of the running program change the two logs of lines only. -/
theorem foldl_hostCall_fields (calls : List HostCall) (s : State) :
    (calls.foldl hostCall s).generated = s.generated ∧
      (calls.foldl hostCall s).packages = s.packages ∧
      (calls.foldl hostCall s).pkgsToLoad = s.pkgsToLoad ∧
      (calls.foldl hostCall s).pkgsReceived = s.pkgsReceived ∧
      (calls.foldl hostCall s).requests = s.requests ∧
      (calls.foldl hostCall s).nextId = s.nextId ∧
      (calls.foldl hostCall s).runLog = s.runLog ∧
      (calls.foldl hostCall s).compileCalls = s.compileCalls ∧
      (calls.foldl hostCall s).programLog = s.programLog ∧
      (calls.foldl hostCall s).evalLog = s.evalLog ∧
      (calls.foldl hostCall s).code = s.code := by
  induction calls generalizing s with
  | nil => simp
  | cons c cs ih =>
    rw [List.foldl_cons]
    have h := ih (hostCall s c)
    cases c <;> simpa [hostCall, goPrintToConsole, goPanicHandler] using h

/-- C10 (as stated, refuted): the text parses, the compilation succeeds and
`pkgsToLoad` is empty after it, yet the full run sends a request (for the
recorded dependency `runtime`, which is not cached) and hands no archive list
to the program writer. -/
theorem C10_uncached_dependency :
    demoEnv.ParseFile depsState.code = ("deps", none) ∧
      (demoEnv.Compile "deps").exec depsState.packages []
        = (.ok ⟨"main", ["runtime", "fmt"], ["main"]⟩, []) ∧
      (run demoEnv false depsState).requests = [⟨0, "pkg/runtime.a", "runtime", false⟩] ∧
      (run demoEnv false depsState).programLog = [] ∧
      (run demoEnv false depsState).evalLog = [] := by
  decide

/-- C10 (amended): when the text parses, the compilation succeeds with
`pkgsToLoad` empty after it, and every path of the main archive's dependency
list is a key of the cache (in which `main` was just stored), the full run
hands the program writer exactly the resolver's archives for the dependency
list in its order followed by the main archive, shows the writer's text for
the main archive alone as generated code, evaluates the guarded program text,
and sends no request. -/
theorem C10_emission {AST : Type} (env : Env AST) (s : State) (file : AST) (mainPkg : Archive)
    (hparse : env.ParseFile s.code = (file, none))
    (hcompile : (env.Compile file).exec s.packages [] = (.ok mainPkg, []))
    (hdeps : ∀ d ∈ mainPkg.Dependencies,
      ((s.packages.set "main" (some mainPkg)) d).isSome = true) :
    (run env false s).programLog
        = s.programLog ++
          [mainPkg.Dependencies.map
              (fun d => (importFunc (s.packages.set "main" (some mainPkg)) [] d).1.1)
            ++ [some mainPkg]] ∧
      (run env false s).generated = env.WritePkgCode (some mainPkg) ∧
      (run env false s).evalLog
        = s.evalLog ++
          ["try\x7b\n" ++
            env.WriteProgramCode
              (mainPkg.Dependencies.map
                  (fun d => (importFunc (s.packages.set "main" (some mainPkg)) [] d).1.1)
                ++ [some mainPkg]) ++
            "\x7d catch (err) \x7b\ngoPanicHandler(err.message);\n\x7d\n"] ∧
      (run env false s).requests = s.requests := by
  have hfilter : mainPkg.Dependencies.filter
      (fun p => ((s.packages.set "main" (some mainPkg)) p).isNone) = [] := by
    rw [List.filter_eq_nil_iff]
    intro d hd
    have := hdeps d hd
    cases h : (s.packages.set "main" (some mainPkg)) d <;> simp_all
  have hmain : (s.packages.set "main" (some mainPkg)).index "main" = some mainPkg := by
    simp [Packages.index, Packages.set]
  simp only [run, hparse, hcompile, afterCompile, walkDeps, fetchOrEmit, CompileResult.pkg,
    List.length_nil, if_true, resolveDeps_eq, importAll_eq, hfilter, List.nil_append, List.append_nil,
    ne_eq, not_true_eq_false, if_false, Bool.false_eq_true, emit, importFunc_fst]
  have h := foldl_hostCall_fields
  simp only [h, hmain]
  simp

theorem C10_emission_witness :
    demoEnv.ParseFile cachedState.code = ("ab", none) ∧
      (demoEnv.Compile "ab").exec cachedState.packages []
        = (.ok ⟨"main", ["a", "b"], ["main"]⟩, []) ∧
      (∀ d ∈ (⟨"main", ["a", "b"], ["main"]⟩ : Archive).Dependencies,
        ((cachedState.packages.set "main" (some ⟨"main", ["a", "b"], ["main"]⟩)) d).isSome
          = true) ∧
      (run demoEnv false cachedState).programLog
        = [[some ⟨"a", [], ["a"]⟩, some ⟨"b", [], ["b"]⟩,
            some ⟨"main", ["a", "b"], ["main"]⟩]] ∧
      (run demoEnv false cachedState).generated = "main" ∧
      (run demoEnv false cachedState).requests = [] :=
  ⟨by decide, by decide, by decide,
   (C10_emission demoEnv cachedState "ab" ⟨"main", ["a", "b"], ["main"]⟩
      (by decide) (by decide) (by decide)).1,
   (C10_emission demoEnv cachedState "ab" ⟨"main", ["a", "b"], ["main"]⟩
      (by decide) (by decide) (by decide)).2.1,
   (C10_emission demoEnv cachedState "ab" ⟨"main", ["a", "b"], ["main"]⟩
      (by decide) (by decide) (by decide)).2.2.2⟩

/-! ## C9: a response that does not decode -/

/-- What the handler does with a response of status 200 that does not decode:
the returned pointer is stored under the path all the same, the error is
shown, the counter keeps its value and `run` is not called. -/
theorem onload_decode_error {AST : Type} (env : Env AST) (req : Request) (data : Bytes)
    (s : State) (ptr : ArchivePtr) (err : GoError) (toLoad : List String)
    (h : (env.UnmarshalArchive (req.path ++ ".a") req.path data).exec s.packages s.pkgsToLoad
      = ((ptr, some err), toLoad)) :
    (onload env req 200 data s).packages = s.packages.set req.path ptr ∧
      (onload env req 200 data s).scopeOutput = [errLine err.Error] ∧
      (onload env req 200 data s).pkgsReceived = s.pkgsReceived ∧
      (onload env req 200 data s).runLog = s.runLog := by
  simp [onload, h, errErrLine]

/-- C9 (the code at the failing input): with requests for `a` and `b` in
flight and no cache entry for `a`, a response of status 200 for `a` whose data
does not decode creates the cache entry `a` holding the nil pointer; the
counter stays at zero and `run` is not called again. -/
theorem C9_decode_error_entry :
    (run demoEnv true (stateWith "ab")).packages "a" = none ∧
      (complete demoEnv (run demoEnv true (stateWith "ab")) ⟨0, 200, []⟩).packages "a"
        = some none ∧
      (complete demoEnv (run demoEnv true (stateWith "ab")) ⟨0, 200, []⟩).pkgsReceived = 0 ∧
      (complete demoEnv (run demoEnv true (stateWith "ab")) ⟨0, 200, []⟩).runLog = [true] := by
  decide

/-! ## Lemmas on requests and on `run` -/

theorem takeRequest_some (id : Nat) (l : List Request) (req : Request) (rest : List Request)
    (h : takeRequest id l = some (req, rest)) :
    req.id = id ∧ req ∈ l ∧ rest.length + 1 = l.length ∧
      (∀ r ∈ rest, r ∈ l) ∧ (∀ r ∈ l, r = req ∨ r ∈ rest) := by
  induction l generalizing rest with
  | nil => simp [takeRequest] at h
  | cons r rs ih =>
    unfold takeRequest at h
    split at h
    · rename_i hid
      simp only [Option.some.injEq, Prod.mk.injEq] at h
      obtain ⟨h1, h2⟩ := h
      subst h1 h2
      refine ⟨hid, List.mem_cons_self _ _, rfl, fun x hx => List.mem_cons_of_mem _ hx,
        fun x hx => ?_⟩
      rcases List.mem_cons.1 hx with hx | hx
      · left; exact hx
      · right; exact hx
    · cases hrec : takeRequest id rs with
      | none => simp [hrec] at h
      | some qr =>
        obtain ⟨q, rest1⟩ := qr
        simp only [hrec, Option.some.injEq, Prod.mk.injEq] at h
        obtain ⟨h1, h2⟩ := h
        subst h1 h2
        obtain ⟨a1, a2, a3, a4, a5⟩ := ih rest1 hrec
        refine ⟨a1, List.mem_cons_of_mem _ a2, by simp [a3], ?_, ?_⟩
        · intro x hx
          rcases List.mem_cons.1 hx with hx | hx
          · simp [hx]
          · exact List.mem_cons_of_mem _ (a4 x hx)
        · intro x hx
          rcases List.mem_cons.1 hx with hx | hx
          · right; simp [hx]
          · rcases a5 x hx with h5 | h5
            · left; exact h5
            · right; exact List.mem_cons_of_mem _ h5

/-- Taking out another request leaves the request numbered `j` in flight. -/
theorem takeRequest_other (i j : Nat) (hij : i ≠ j) (l : List Request)
    (q : Request) (rest : List Request) (req : Request) (r0 : List Request)
    (hi : takeRequest i l = some (q, rest)) (hj : takeRequest j l = some (req, r0)) :
    ∃ r1, takeRequest j rest = some (req, r1) := by
  induction l generalizing rest r0 with
  | nil => simp [takeRequest] at hi
  | cons r rs ih =>
    unfold takeRequest at hi hj
    by_cases h1 : r.id = i
    · have h2 : ¬ r.id = j := fun h => hij (h1 ▸ h)
      simp only [h1, if_true, Option.some.injEq, Prod.mk.injEq] at hi
      simp only [h2, if_false] at hj
      obtain ⟨_, hrest⟩ := hi
      subst hrest
      cases hrec : takeRequest j rs with
      | none => simp [hrec] at hj
      | some qr =>
        obtain ⟨q2, rest2⟩ := qr
        simp only [hrec, Option.some.injEq, Prod.mk.injEq] at hj
        exact ⟨rest2, by rw [hj.1]⟩
    · simp only [h1, if_false] at hi
      cases hreci : takeRequest i rs with
      | none => simp [hreci] at hi
      | some qr =>
        obtain ⟨q1, rest1⟩ := qr
        simp only [hreci, Option.some.injEq, Prod.mk.injEq] at hi
        obtain ⟨hq, hrest⟩ := hi
        subst hq hrest
        by_cases h2 : r.id = j
        · simp only [h2, if_true, Option.some.injEq, Prod.mk.injEq] at hj
          obtain ⟨hr, _⟩ := hj
          subst hr
          refine ⟨rest1, ?_⟩
          unfold takeRequest
          simp [h2]
        · simp only [h2, if_false] at hj
          cases hrecj : takeRequest j rs with
          | none => simp [hrecj] at hj
          | some qr2 =>
            obtain ⟨q2, rest2⟩ := qr2
            simp only [hrecj, Option.some.injEq, Prod.mk.injEq] at hj
            obtain ⟨r1, hr1⟩ := ih rest1 rest2 hreci (by rw [hrecj, hj.1])
            refine ⟨r :: r1, ?_⟩
            unfold takeRequest
            simp [h2, hr1]

/-- The resolver only ever appends to `pkgsToLoad`. -/
theorem exec_toLoad_prefix {α : Type} (m : Importing α) (packages : Packages)
    (toLoad : List String) : ∃ extra, (m.exec packages toLoad).2 = toLoad ++ extra := by
  induction m generalizing toLoad with
  | done a => exact ⟨[], by simp [Importing.exec]⟩
  | imp path k ih =>
    unfold Importing.exec
    obtain ⟨e1, h1⟩ := ih (importFunc packages toLoad path).1 (importFunc packages toLoad path).2
    rw [h1]
    unfold importFunc
    cases packages path with
    | none => exact ⟨[path] ++ e1, by simp⟩
    | some pkg => exact ⟨e1, by simp⟩

theorem exec_toLoad_length {α : Type} (m : Importing α) (packages : Packages)
    (toLoad : List String) : toLoad.length ≤ (m.exec packages toLoad).2.length := by
  obtain ⟨e, h⟩ := exec_toLoad_prefix m packages toLoad
  rw [h]
  simp

/-- The request loop: the requests sent are appended to those in flight, one
per path and in the order of the paths, each carrying the flag; the other
variables are not touched. -/
theorem foldl_send (loadOnly : Bool) (paths : List String) (s : State) :
    ∃ news, (paths.foldl (send loadOnly) s).requests = s.requests ++ news ∧
      news.map Request.path = paths ∧
      (∀ r ∈ news, r.loadOnly = loadOnly) ∧
      (paths.foldl (send loadOnly) s).pkgsToLoad = s.pkgsToLoad ∧
      (paths.foldl (send loadOnly) s).pkgsReceived = s.pkgsReceived ∧
      (paths.foldl (send loadOnly) s).packages = s.packages ∧
      (paths.foldl (send loadOnly) s).runLog = s.runLog ∧
      (paths.foldl (send loadOnly) s).evalLog = s.evalLog ∧
      (paths.foldl (send loadOnly) s).programLog = s.programLog ∧
      (paths.foldl (send loadOnly) s).generated = s.generated ∧
      (paths.foldl (send loadOnly) s).output = s.output ∧
      (paths.foldl (send loadOnly) s).scopeOutput = s.scopeOutput := by
  induction paths generalizing s with
  | nil => exact ⟨[], by simp⟩
  | cons p ps ih =>
    obtain ⟨news, h1, h2, h3, h4⟩ := ih (send loadOnly s p)
    refine ⟨{ id := s.nextId, url := "pkg/" ++ p ++ ".a", path := p, loadOnly := loadOnly }
      :: news, ?_, ?_, ?_, ?_⟩
    · rw [List.foldl_cons, h1]
      simp [send]
    · simp [h2]
    · intro r hr
      rcases List.mem_cons.1 hr with hr | hr
      · rw [hr]
      · exact h3 r hr
    · rw [List.foldl_cons]
      simpa [send] using h4

theorem fetchAll_shape (loadOnly : Bool) (s : State) :
    ∃ news, (fetchAll loadOnly s).requests = s.requests ++ news ∧
      news.map Request.path = s.pkgsToLoad ∧
      (∀ r ∈ news, r.loadOnly = loadOnly) ∧
      (fetchAll loadOnly s).pkgsToLoad = s.pkgsToLoad ∧
      (fetchAll loadOnly s).pkgsReceived = 0 ∧
      (fetchAll loadOnly s).packages = s.packages ∧
      (fetchAll loadOnly s).runLog = s.runLog ∧
      (fetchAll loadOnly s).evalLog = s.evalLog ∧
      (fetchAll loadOnly s).programLog = s.programLog ∧
      (fetchAll loadOnly s).generated = s.generated ∧
      (fetchAll loadOnly s).output = s.output ∧
      (fetchAll loadOnly s).scopeOutput = s.scopeOutput := by
  unfold fetchAll
  obtain ⟨news, h⟩ := foldl_send loadOnly s.pkgsToLoad { s with pkgsReceived := 0 }
  exact ⟨news, by simpa using h⟩

/-- What every branch of the second half of `run` has in common. -/
theorem afterCompile_shape {AST : Type} (env : Env AST) (loadOnly : Bool)
    (res : CompileResult) (s : State) :
    ∃ news, (afterCompile env loadOnly res s).requests = s.requests ++ news ∧
      news.map Request.path = (afterCompile env loadOnly res s).pkgsToLoad ∧
      (∀ r ∈ news, r.loadOnly = loadOnly) ∧
      ((afterCompile env loadOnly res s).pkgsToLoad = [] ∨
        (afterCompile env loadOnly res s).pkgsReceived = 0) ∧
      (afterCompile env loadOnly res s).runLog = s.runLog ∧
      (loadOnly = true →
        (afterCompile env loadOnly res s).evalLog = s.evalLog ∧
        (afterCompile env loadOnly res s).programLog = s.programLog ∧
        (afterCompile env loadOnly res s).generated = s.generated) := by
  cases res with
  | fail p err =>
    by_cases h : s.pkgsToLoad.length = 0
    · have hnil : s.pkgsToLoad = [] := List.length_eq_zero.1 h
      cases err <;> exact ⟨[], by simp [afterCompile, h, hnil]⟩
    · obtain ⟨news, h1, h2, h3, h4, h5, h6, h7, h8, h9, h10, _⟩ := fetchAll_shape loadOnly s
      refine ⟨news, ?_⟩
      simp only [afterCompile, h, if_false]
      exact ⟨h1, by rw [h2, h4], h3, Or.inr h5, h7, fun _ => ⟨h8, h9, h10⟩⟩
  | ok mainPkg =>
    generalize hw : walkDeps mainPkg s = w
    simp only [afterCompile, hw, fetchOrEmit]
    by_cases hne : w.2.length = 0
    · have hnil : w.2 = [] := List.length_eq_zero.1 hne
      refine ⟨[], ?_⟩
      cases loadOnly
      · have hf := foldl_hostCall_fields
        simp [hnil, emit, hf]
      · simp [hnil]
    · obtain ⟨news, h1, h2, h3, h4, h5, h6, h7, h8, h9, h10, _⟩ :=
        fetchAll_shape loadOnly { s with pkgsToLoad := w.2 }
      refine ⟨news, ?_⟩
      simp only [ne_eq, hne, not_false_eq_true, if_true]
      exact ⟨h1, by rw [h2, h4], h3, Or.inr h5, h7, fun _ => ⟨h8, h9, h10⟩⟩

/-- What every call of `run` does: it sends the requests for the final
`pkgsToLoad` (none when that is empty) with its flag, after a fetch the
counter is zero, it records its call, and with `loadOnly` set it writes and
evaluates nothing. -/
theorem run_shape {AST : Type} (env : Env AST) (loadOnly : Bool) (s : State) :
    ∃ news, (run env loadOnly s).requests = s.requests ++ news ∧
      news.map Request.path = (run env loadOnly s).pkgsToLoad ∧
      (∀ r ∈ news, r.loadOnly = loadOnly) ∧
      ((run env loadOnly s).pkgsToLoad = [] ∨ (run env loadOnly s).pkgsReceived = 0) ∧
      (run env loadOnly s).runLog = s.runLog ++ [loadOnly] ∧
      (loadOnly = true →
        (run env loadOnly s).evalLog = s.evalLog ∧
        (run env loadOnly s).programLog = s.programLog ∧
        (run env loadOnly s).generated = s.generated) := by
  unfold run
  simp only
  split
  · exact ⟨[], by simp⟩
  · exact ⟨[], by simp⟩
  · rename_i file hparse
    obtain ⟨news, h⟩ := afterCompile_shape env loadOnly
      ((env.Compile file).exec s.packages []).1
      { s with output := [], scopeOutput := [], pkgsToLoad := ((env.Compile file).exec s.packages []).2,
               runLog := s.runLog ++ [loadOnly], compileCalls := s.compileCalls + 1,
               packages := s.packages.set "main" ((env.Compile file).exec s.packages []).1.pkg }
    exact ⟨news, by simpa using h⟩

/-! ## C2: the retry of a batch -/

/-- A completion that succeeds stores the archive, counts, and calls `run`
exactly when the counter has reached the length of `pkgsToLoad`. -/
theorem complete_of_succeeds {AST : Type} (env : Env AST) (t : State) (c : Completion)
    (h : succeeds env t c = true) :
    ∃ req rest ptr, takeRequest c.id t.requests = some (req, rest) ∧
      complete env t c =
        if t.pkgsReceived + 1 = t.pkgsToLoad.length then
          run env req.loadOnly
            { t with requests := rest, packages := t.packages.set req.path ptr,
                     pkgsReceived := t.pkgsReceived + 1 }
        else
          { t with requests := rest, packages := t.packages.set req.path ptr,
                   pkgsReceived := t.pkgsReceived + 1 } := by
  unfold succeeds at h
  cases htake : takeRequest c.id t.requests with
  | none => simp [htake] at h
  | some qr =>
    obtain ⟨req, rest⟩ := qr
    simp only [htake, Bool.and_eq_true, decide_eq_true_eq, Option.isNone_iff_eq_none] at h
    obtain ⟨⟨hstatus, herr⟩, hload⟩ := h
    refine ⟨req, rest,
      ((env.UnmarshalArchive (req.path ++ ".a") req.path c.response).exec
        t.packages t.pkgsToLoad).1.1, rfl, ?_⟩
    simp [complete, htake, onload, hstatus, herr, hload]

theorem batch_retry {AST : Type} (env : Env AST) (loadOnly : Bool) (batch : List String)
    (log : List Bool) (cs : List Completion) (t : State)
    (hinv : BatchInv loadOnly batch log t) (hlen : cs.length = t.requests.length)
    (hpos : 1 ≤ t.requests.length) (hok : allSucceed env t cs = true) :
    (∀ k, k < cs.length → (completeAll env t (cs.take k)).runLog = log) ∧
      ∃ s, completeAll env t cs = run env loadOnly s ∧ s.runLog = log ∧ s.requests = [] ∧
        ∀ p ∈ batch, (s.packages p).isSome = true := by
  induction cs generalizing t with
  | nil => simp at hlen; omega
  | cons c cs ih =>
    obtain ⟨hlog, hload, hcount, hflag, hcached⟩ := hinv
    simp only [allSucceed, Bool.and_eq_true] at hok
    obtain ⟨hc, hrest⟩ := hok
    obtain ⟨req, rest, ptr, htake, hstep⟩ := complete_of_succeeds env t c hc
    obtain ⟨_, hmem, hlen1, hsub, hcover⟩ := takeRequest_some _ _ _ _ htake
    have hcached2 : ∀ p ∈ batch,
        ((t.packages.set req.path ptr) p).isSome = true ∨ p ∈ rest.map Request.path := by
      intro p hp
      by_cases hpr : p = req.path
      · left; simp [Packages.set, hpr]
      · rcases hcached p hp with h1 | h1
        · left; simpa [Packages.set, hpr] using h1
        · right
          obtain ⟨r, hr, hrp⟩ := List.mem_map.1 h1
          rcases hcover r hr with h2 | h2
          · exact absurd (by rw [← hrp, h2]) hpr
          · exact List.mem_map.2 ⟨r, h2, hrp⟩
    by_cases hlast : rest = []
    · -- the last request of the batch
      subst hlast
      have hcs : cs = [] := by
        simp only [List.length_cons, List.length_nil] at hlen hlen1
        exact List.length_eq_zero.1 (by omega)
      subst hcs
      have hn : t.pkgsReceived + 1 = t.pkgsToLoad.length := by
        simp only [List.length_nil] at hlen1
        rw [hload]; omega
      refine ⟨?_, ?_⟩
      · intro k hk
        have : k = 0 := by simp at hk; omega
        subst this
        simpa [completeAll] using hlog
      · refine ⟨{ t with requests := [], packages := t.packages.set req.path ptr,
                           pkgsReceived := t.pkgsReceived + 1 }, ?_, hlog, rfl, ?_⟩
        · simp only [completeAll, List.foldl_cons, List.foldl_nil]
          rw [hstep, if_pos hn, hflag req hmem]
        · intro p hp
          rcases hcached2 p hp with h1 | h1
          · exact h1
          · simp at h1
    · -- an earlier request
      have hrestlen : 1 ≤ rest.length := by
        cases rest with
        | nil => exact absurd rfl hlast
        | cons _ _ => simp
      have hn : ¬ t.pkgsReceived + 1 = t.pkgsToLoad.length := by
        rw [hload]; omega
      rw [if_neg hn] at hstep
      have hinv2 : BatchInv loadOnly batch log (complete env t c) := by
        rw [hstep]
        refine ⟨hlog, hload, ?_, fun r hr => hflag r (hsub r hr), hcached2⟩
        simp only
        omega
      have hlen2 : cs.length = (complete env t c).requests.length := by
        rw [hstep]
        simp only [List.length_cons] at hlen
        simp only
        omega
      have hpos2 : 1 ≤ (complete env t c).requests.length := by
        rw [hstep]; exact hrestlen
      obtain ⟨ih1, ih2⟩ := ih (complete env t c) hinv2 hlen2 hpos2 hrest
      refine ⟨?_, ?_⟩
      · intro k hk
        cases k with
        | zero => simpa [completeAll] using hlog
        | succ k =>
          have := ih1 k (by simp at hk; omega)
          simpa [completeAll] using this
      · simpa [completeAll] using ih2

/-- C2 (as stated, refuted): the run on `"ab"` is the only run invoked from
here on and ends with the two pending paths `a` and `b`, but the request for
`b` of the earlier run is still in flight.  When that request and then the
batch's own request for `b` complete with success (neither decoding touches
`pkgsToLoad`), the shared counter reaches two and the batch's handler calls
`run` again at the batch's first own completion, while `a` is not cached and
its request is still in flight. -/
theorem C2_stale_request_retries_early :
    (run demoEnv false editedState).pkgsToLoad = ["a", "b"] ∧
      (run demoEnv false editedState).runLog = [true, false] ∧
      (run demoEnv false editedState).requests
        = [⟨0, "pkg/b.a", "b", true⟩, ⟨1, "pkg/a.a", "a", false⟩,
           ⟨2, "pkg/b.a", "b", false⟩] ∧
      allSucceed demoEnv (run demoEnv false editedState) [⟨0, 200, [1]⟩, ⟨2, 200, [1]⟩]
        = true ∧
      (completeAll demoEnv (run demoEnv false editedState) [⟨0, 200, [1]⟩]).runLog
        = [true, false] ∧
      (completeAll demoEnv (run demoEnv false editedState)
        [⟨0, 200, [1]⟩, ⟨2, 200, [1]⟩]).runLog = [true, false, false] ∧
      (completeAll demoEnv (run demoEnv false editedState)
        [⟨0, 200, [1]⟩, ⟨2, 200, [1]⟩]).packages "a" = none ∧
      ⟨1, "pkg/a.a", "a", false⟩ ∈ (completeAll demoEnv (run demoEnv false editedState)
        [⟨0, 200, [1]⟩, ⟨2, 200, [1]⟩]).requests := by
  decide

/-- C2 (amended): a run that starts with no request in flight and ends with a non-empty
`pkgsToLoad` of `n` paths, followed by `n` completions that each answer a
request in flight with success and leave `pkgsToLoad` alone, in any order:
after fewer than `n` of them `run` has not been called again; the `n`-th one
calls `run` again, once and with the same flag, from a state in which no
request is in flight any more and every path of the batch is cached. -/
theorem C2_retry_once {AST : Type} (env : Env AST) (loadOnly : Bool) (s0 : State)
    (cs : List Completion)
    (h0 : s0.requests = [])
    (hn : (run env loadOnly s0).pkgsToLoad ≠ [])
    (hlen : cs.length = (run env loadOnly s0).pkgsToLoad.length)
    (hok : allSucceed env (run env loadOnly s0) cs = true) :
    (∀ k, k < cs.length →
        (completeAll env (run env loadOnly s0) (cs.take k)).runLog
          = s0.runLog ++ [loadOnly]) ∧
      (completeAll env (run env loadOnly s0) cs).runLog
        = s0.runLog ++ [loadOnly, loadOnly] ∧
      ∃ s, completeAll env (run env loadOnly s0) cs = run env loadOnly s ∧
        s.runLog = s0.runLog ++ [loadOnly] ∧ s.requests = [] ∧
        ∀ p ∈ (run env loadOnly s0).pkgsToLoad, (s.packages p).isSome = true := by
  obtain ⟨news, hreq, hpaths, hflags, hzero, hlog, _⟩ := run_shape env loadOnly s0
  rw [h0, List.nil_append] at hreq
  have hrec : (run env loadOnly s0).pkgsReceived = 0 := by
    rcases hzero with h | h
    · exact absurd h hn
    · exact h
  have hlen2 : (run env loadOnly s0).requests.length
      = (run env loadOnly s0).pkgsToLoad.length := by
    rw [hreq, ← hpaths, List.length_map]
  have hinv : BatchInv loadOnly (run env loadOnly s0).pkgsToLoad (s0.runLog ++ [loadOnly])
      (run env loadOnly s0) := by
    refine ⟨hlog, rfl, by rw [hrec, hlen2]; simp, ?_, ?_⟩
    · intro r hr
      rw [hreq] at hr
      exact hflags r hr
    · intro p hp
      right
      rw [hreq, hpaths]
      exact hp
  have hpos : 1 ≤ (run env loadOnly s0).requests.length := by
    rw [hlen2]
    cases h : (run env loadOnly s0).pkgsToLoad with
    | nil => exact absurd h hn
    | cons _ _ => simp
  obtain ⟨h1, s, h2, h3, h4, h5⟩ :=
    batch_retry env loadOnly _ _ cs (run env loadOnly s0) hinv (by rw [hlen, hlen2]) hpos hok
  refine ⟨h1, ?_, s, h2, h3, h4, h5⟩
  rw [h2]
  obtain ⟨_, _, _, _, _, hlog2, _⟩ := run_shape env loadOnly s
  rw [hlog2, h3]
  simp

theorem C2_retry_once_witness :
    (stateWith "ab").requests = [] ∧
      (run demoEnv false (stateWith "ab")).pkgsToLoad = ["a", "b"] ∧
      allSucceed demoEnv (run demoEnv false (stateWith "ab")) [⟨1, 200, [1]⟩, ⟨0, 200, [1]⟩]
        = true ∧
      (completeAll demoEnv (run demoEnv false (stateWith "ab"))
        [⟨1, 200, [1]⟩, ⟨0, 200, [1]⟩]).runLog = [false, false] :=
  ⟨rfl, by decide, by decide,
   (C2_retry_once demoEnv false (stateWith "ab") [⟨1, 200, [1]⟩, ⟨0, 200, [1]⟩]
      rfl (by decide) (by decide) (by decide)).2.1⟩

/-! ## C3: a request that fails -/

theorem pending_step {AST : Type} (env : Env AST) (j : Nat) (req : Request) (log : List Bool)
    (t : State) (c : Completion) (hinv : PendingInv j req log t) (hc : c.id ≠ j) :
    PendingInv j req log (complete env t c) := by
  obtain ⟨hlog, hcount, r0, hj⟩ := hinv
  unfold complete
  cases htake : takeRequest c.id t.requests with
  | none => exact ⟨hlog, hcount, r0, hj⟩
  | some qr =>
    obtain ⟨q, rest⟩ := qr
    obtain ⟨r1, hj1⟩ := takeRequest_other c.id j hc t.requests q rest req r0 htake hj
    obtain ⟨_, _, hlen, _, _⟩ := takeRequest_some _ _ _ _ htake
    obtain ⟨_, _, hlen1, _, _⟩ := takeRequest_some _ _ _ _ hj1
    have hgrow := exec_toLoad_length
      (env.UnmarshalArchive (q.path ++ ".a") q.path c.response) t.packages t.pkgsToLoad
    simp only [onload]
    split
    · exact ⟨hlog, by simp only; omega, r1, hj1⟩
    · split
      · exact ⟨hlog, by simp only; omega, r1, hj1⟩
      · have hne : ¬ t.pkgsReceived + 1 =
            ((env.UnmarshalArchive (q.path ++ ".a") q.path c.response).exec
              t.packages t.pkgsToLoad).2.length := by omega
        simp only [hne, if_false]
        exact ⟨hlog, by simp only; omega, r1, hj1⟩

theorem failed_step {AST : Type} (env : Env AST) (log : List Bool) (t : State)
    (c : Completion) (hinv : FailedInv log t) :
    FailedInv log (complete env t c) := by
  obtain ⟨hlog, hcount⟩ := hinv
  unfold complete
  cases htake : takeRequest c.id t.requests with
  | none => exact ⟨hlog, hcount⟩
  | some qr =>
    obtain ⟨q, rest⟩ := qr
    obtain ⟨_, _, hlen, _, _⟩ := takeRequest_some _ _ _ _ htake
    have hgrow := exec_toLoad_length
      (env.UnmarshalArchive (q.path ++ ".a") q.path c.response) t.packages t.pkgsToLoad
    simp only [onload]
    split
    · exact ⟨hlog, by simp only; omega⟩
    · split
      · exact ⟨hlog, by simp only; omega⟩
      · have hne : ¬ t.pkgsReceived + 1 =
            ((env.UnmarshalArchive (q.path ++ ".a") q.path c.response).exec
              t.packages t.pkgsToLoad).2.length := by omega
        simp only [hne, if_false]
        exact ⟨hlog, by simp only; omega⟩

theorem pending_all {AST : Type} (env : Env AST) (j : Nat) (req : Request) (log : List Bool)
    (cs : List Completion) (t : State) (hinv : PendingInv j req log t)
    (hcs : ∀ d ∈ cs, d.id ≠ j) : PendingInv j req log (completeAll env t cs) := by
  induction cs generalizing t with
  | nil => exact hinv
  | cons c cs ih =>
    simp only [completeAll, List.foldl_cons]
    exact ih (complete env t c) (pending_step env j req log t c hinv (hcs c (by simp)))
      (fun d hd => hcs d (by simp [hd]))

theorem failed_all {AST : Type} (env : Env AST) (log : List Bool)
    (cs : List Completion) (t : State) (hinv : FailedInv log t) :
    FailedInv log (completeAll env t cs) := by
  induction cs generalizing t with
  | nil => exact hinv
  | cons c cs ih =>
    simp only [completeAll, List.foldl_cons]
    exact ih (complete env t c) (failed_step env log t c hinv)

/-- The handler of a response whose status is not 200 shows the one error line
naming the path and touches neither the cache nor the counter. -/
theorem pending_fail {AST : Type} (env : Env AST) (j : Nat) (req : Request) (log : List Bool)
    (t : State) (c : Completion) (hinv : PendingInv j req log t) (hc : c.id = j)
    (hstatus : c.status ≠ 200) :
    (complete env t c).scopeOutput = [errLine ("cannot load package \"" ++ req.path ++ "\"")] ∧
      (complete env t c).packages = t.packages ∧
      (complete env t c).pkgsReceived = t.pkgsReceived ∧
      FailedInv log (complete env t c) := by
  obtain ⟨hlog, hcount, r0, hj⟩ := hinv
  obtain ⟨_, _, hlen, _, _⟩ := takeRequest_some _ _ _ _ hj
  have hstep : complete env t c =
      { t with requests := r0,
               scopeOutput := [errLine ("cannot load package \"" ++ req.path ++ "\"")] } := by
    simp [complete, hc, hj, onload, hstatus]
  rw [hstep]
  exact ⟨rfl, rfl, rfl, hlog, by simp only; omega⟩

theorem completeAll_append {AST : Type} (env : Env AST) (t : State)
    (xs ys : List Completion) :
    completeAll env t (xs ++ ys) = completeAll env (completeAll env t xs) ys := by
  simp [completeAll, List.foldl_append]

/-- C3 (as stated, refuted): the run on `"ab"` is the only run invoked from
here on and its batch holds `a` and `b`, but the request for `b` of the
earlier run is still in flight.  The batch's request for `a` completes with
status 404 and the error line is shown; then the earlier request for `b` and
the batch's own request for `b` complete with success, and the batch's handler
calls `run` again, which clears the shown error line. -/
theorem C3_stale_request_retries_after_failure :
    (run demoEnv false editedState).runLog = [true, false] ∧
      (run demoEnv false editedState).requests
        = [⟨0, "pkg/b.a", "b", true⟩, ⟨1, "pkg/a.a", "a", false⟩,
           ⟨2, "pkg/b.a", "b", false⟩] ∧
      (completeAll demoEnv (run demoEnv false editedState) [⟨1, 404, []⟩]).scopeOutput
        = [⟨"err", "cannot load package \"a\""⟩] ∧
      (completeAll demoEnv (run demoEnv false editedState)
        [⟨1, 404, []⟩, ⟨0, 200, [1]⟩]).runLog = [true, false] ∧
      (completeAll demoEnv (run demoEnv false editedState)
        [⟨1, 404, []⟩, ⟨0, 200, [1]⟩, ⟨2, 200, [1]⟩]).runLog = [true, false, false] ∧
      (completeAll demoEnv (run demoEnv false editedState)
        [⟨1, 404, []⟩, ⟨0, 200, [1]⟩, ⟨2, 200, [1]⟩]).scopeOutput = [] := by
  decide

/-- C3 (amended): a run that starts with no request in flight sends a batch; the
completions `pre` answer other requests with any responses, then the request
`req` of the batch is answered by `c` with a status other than 200, then the
completions `post` follow.  The failing completion leaves the shown output
equal to the one error line naming the path of `req` and leaves the cache as
it was, and after every number of completions of the whole sequence `run` has
not been called again. -/
theorem C3_failed_fetch {AST : Type} (env : Env AST) (loadOnly : Bool) (s0 : State)
    (pre post : List Completion) (c : Completion) (req : Request) (rest0 : List Request)
    (h0 : s0.requests = [])
    (hreq : takeRequest c.id (run env loadOnly s0).requests = some (req, rest0))
    (hpre : ∀ d ∈ pre, d.id ≠ c.id)
    (hstatus : c.status ≠ 200) :
    (complete env (completeAll env (run env loadOnly s0) pre) c).scopeOutput
        = [errLine ("cannot load package \"" ++ req.path ++ "\"")] ∧
      (complete env (completeAll env (run env loadOnly s0) pre) c).packages
        = (completeAll env (run env loadOnly s0) pre).packages ∧
      ∀ k, (completeAll env (run env loadOnly s0) ((pre ++ c :: post).take k)).runLog
        = s0.runLog ++ [loadOnly] := by
  obtain ⟨news, hnews, hpaths, _, hzero, hlog, _⟩ := run_shape env loadOnly s0
  rw [h0, List.nil_append] at hnews
  obtain ⟨_, hmem, _, _, _⟩ := takeRequest_some _ _ _ _ hreq
  have hne : (run env loadOnly s0).pkgsToLoad ≠ [] := by
    intro h
    rw [h] at hpaths
    rw [hnews, List.map_eq_nil_iff.1 hpaths] at hmem
    simp at hmem
  have hrec : (run env loadOnly s0).pkgsReceived = 0 := by
    rcases hzero with h | h
    · exact absurd h hne
    · exact h
  have hinv : PendingInv c.id req (s0.runLog ++ [loadOnly]) (run env loadOnly s0) := by
    refine ⟨hlog, ?_, rest0, hreq⟩
    rw [hrec, hnews, ← hpaths, List.length_map]
    simp
  have hbefore := pending_all env c.id req _ pre _ hinv hpre
  obtain ⟨h1, h2, _, hfailed⟩ := pending_fail env c.id req _ _ c hbefore rfl hstatus
  refine ⟨h1, h2, ?_⟩
  intro k
  by_cases hk : k ≤ pre.length
  · rw [List.take_append_of_le_length hk]
    exact (pending_all env c.id req _ (pre.take k) _ hinv
      (fun d hd => hpre d (List.mem_of_mem_take hd))).1
  · obtain ⟨m, hm⟩ : ∃ m, k = pre.length + (m + 1) := ⟨k - pre.length - 1, by omega⟩
    rw [hm, List.take_append, List.take_succ_cons, completeAll_append]
    simp only [completeAll, List.foldl_cons]
    exact (failed_all env _ (post.take m) _ hfailed).1

theorem C3_failed_fetch_witness :
    (stateWith "ab").requests = [] ∧
      takeRequest 0 (run demoEnv false (stateWith "ab")).requests
        = some (⟨0, "pkg/a.a", "a", false⟩, [⟨1, "pkg/b.a", "b", false⟩]) ∧
      (complete demoEnv (completeAll demoEnv (run demoEnv false (stateWith "ab"))
          [⟨1, 200, [1]⟩]) ⟨0, 404, []⟩).scopeOutput
        = [errLine ("cannot load package \"" ++ "a" ++ "\"")] :=
  ⟨rfl, by decide,
   (C3_failed_fetch demoEnv false (stateWith "ab") [⟨1, 200, [1]⟩] [⟨0, 200, [1]⟩]
      ⟨0, 404, []⟩ ⟨0, "pkg/a.a", "a", false⟩ [⟨1, "pkg/b.a", "b", false⟩]
      rfl (by decide) (by decide) (by decide)).1⟩

/-! ## C8: runs with `loadOnly` set -/

theorem run_loadOnly_inv {AST : Type} (env : Env AST) (evalLog : List String)
    (programLog : List (List ArchivePtr)) (generated : String) (log : List Bool) (t : State)
    (hinv : LoadOnlyInv evalLog programLog generated log t) :
    LoadOnlyInv evalLog programLog generated log (run env true t) := by
  obtain ⟨hreq, he, hp, hg, l, hl, hall⟩ := hinv
  obtain ⟨news, h1, _, h3, _, h5, h6⟩ := run_shape env true t
  obtain ⟨h7, h8, h9⟩ := h6 rfl
  refine ⟨?_, by rw [h7, he], by rw [h8, hp], by rw [h9, hg], l ++ [true], ?_, ?_⟩
  · intro r hr
    rw [h1] at hr
    rcases List.mem_append.1 hr with h | h
    · exact hreq r h
    · exact h3 r h
  · rw [h5, hl, List.append_assoc]
  · intro x hx
    rcases List.mem_append.1 hx with h | h
    · exact hall x h
    · simpa using h

theorem complete_loadOnly_inv {AST : Type} (env : Env AST) (evalLog : List String)
    (programLog : List (List ArchivePtr)) (generated : String) (log : List Bool) (t : State)
    (c : Completion) (hinv : LoadOnlyInv evalLog programLog generated log t) :
    LoadOnlyInv evalLog programLog generated log (complete env t c) := by
  unfold complete
  cases htake : takeRequest c.id t.requests with
  | none => exact hinv
  | some qr =>
    obtain ⟨q, rest⟩ := qr
    obtain ⟨hreq, he, hp, hg, hl⟩ := hinv
    obtain ⟨_, hmem, _, hsub, _⟩ := takeRequest_some _ _ _ _ htake
    have hrest : ∀ r ∈ rest, r.loadOnly = true := fun r hr => hreq r (hsub r hr)
    simp only [onload]
    split
    · exact ⟨hrest, he, hp, hg, hl⟩
    · split
      · exact ⟨hrest, he, hp, hg, hl⟩
      · split
        · rw [hreq q hmem]
          exact run_loadOnly_inv env _ _ _ _ _ ⟨hrest, he, hp, hg, hl⟩
        · exact ⟨hrest, he, hp, hg, hl⟩

theorem completeAll_loadOnly_inv {AST : Type} (env : Env AST) (evalLog : List String)
    (programLog : List (List ArchivePtr)) (generated : String) (log : List Bool)
    (cs : List Completion) (t : State)
    (hinv : LoadOnlyInv evalLog programLog generated log t) :
    LoadOnlyInv evalLog programLog generated log (completeAll env t cs) := by
  induction cs generalizing t with
  | nil => exact hinv
  | cons c cs ih =>
    simp only [completeAll, List.foldl_cons]
    exact ih (complete env t c) (complete_loadOnly_inv env _ _ _ _ t c hinv)

/-- C8: after `run(true)` from a state whose requests in flight all carry the
flag, and after any completions with any responses in any order, no archive
list was given to the program writer, nothing was evaluated, the generated
text is unchanged, and every call of `run` since was made with the flag set;
and when the text parses and the compilation succeeds with `pkgsToLoad` empty,
the log and the shown output are empty after the run. -/
theorem C8_load_only {AST : Type} (env : Env AST) (s0 : State) (cs : List Completion)
    (h0 : ∀ r ∈ s0.requests, r.loadOnly = true) :
    (completeAll env (run env true s0) cs).programLog = s0.programLog ∧
      (completeAll env (run env true s0) cs).evalLog = s0.evalLog ∧
      (completeAll env (run env true s0) cs).generated = s0.generated ∧
      (∃ l, (completeAll env (run env true s0) cs).runLog = s0.runLog ++ l ∧
        ∀ x ∈ l, x = true) ∧
      (∀ file mainPkg, env.ParseFile s0.code = (file, none) →
        (env.Compile file).exec s0.packages [] = (.ok mainPkg, []) →
        (run env true s0).output = [] ∧ (run env true s0).scopeOutput = []) := by
  have hinit : LoadOnlyInv s0.evalLog s0.programLog s0.generated s0.runLog s0 :=
    ⟨h0, rfl, rfl, rfl, [], by simp, by simp⟩
  obtain ⟨_, he, hp, hg, hl⟩ := completeAll_loadOnly_inv env _ _ _ _ cs _
    (run_loadOnly_inv env _ _ _ _ s0 hinit)
  refine ⟨hp, he, hg, hl, ?_⟩
  intro file mainPkg hparse hcompile
  simp only [run, hparse, hcompile, afterCompile, fetchOrEmit, CompileResult.pkg]
  split
  · rename_i hne
    obtain ⟨_, _, _, _, _, _, _, _, _, _, _, hout, hscope⟩ := fetchAll_shape true
      { s0 with output := [], scopeOutput := [],
                pkgsToLoad := (walkDeps mainPkg
                  { s0 with output := [], scopeOutput := [], pkgsToLoad := [],
                            runLog := s0.runLog ++ [true],
                            compileCalls := s0.compileCalls + 1,
                            packages := s0.packages.set "main" (some mainPkg) }).2,
                runLog := s0.runLog ++ [true], compileCalls := s0.compileCalls + 1,
                packages := s0.packages.set "main" (some mainPkg) }
    exact ⟨hout, hscope⟩
  · simp

theorem C8_load_only_witness :
    (∀ r ∈ (stateWith "ab").requests, r.loadOnly = true) ∧
      (completeAll demoEnv (run demoEnv true (stateWith "ab"))
        [⟨0, 200, [1]⟩, ⟨1, 200, [1]⟩]).evalLog = [] ∧
      (completeAll demoEnv (run demoEnv true (stateWith "ab"))
        [⟨0, 200, [1]⟩, ⟨1, 200, [1]⟩]).runLog = [true, true] ∧
      demoEnv.ParseFile (stateWith "ab").code = ("ab", none) ∧
      (run demoEnv true (stateWith "hello")).scopeOutput = [] :=
  ⟨by decide,
   (C8_load_only demoEnv (stateWith "ab") [⟨0, 200, [1]⟩, ⟨1, 200, [1]⟩] (by decide)).2.1,
   by decide, by decide,
   ((C8_load_only demoEnv (stateWith "hello") [] (by decide)).2.2.2.2
      "hello" ⟨"main", [], ["main"]⟩ (by decide) (by decide)).2⟩

end Playground
